import Mathlib

/-!
# Kalliope lookup service (`src/api/main.cpp`)

A shallow embedding of the prefix query executor `query_prefix` and of the
two HTTP handlers registered in `main`, together with the port selection.

The SQLite connection is an explicit state threaded through every call; the
engine itself is a parameter (`Sqlite3 σ`), since the program only talks to
it through the prepared-statement API.  The `while` loop over
`sqlite3_step` is modelled with fuel, because an arbitrary engine may keep
yielding rows for ever.  The mutex held during a query has no effect on a
single call and is not modelled.
-/

namespace Kalliope

/-! ## C strings and machine integers -/

/-- The text a reader of the NUL-terminated buffer `s.c_str()` sees: the
characters of `s` before its first NUL.  Both `sqlite3_bind_text` with a
length of `-1` and the `std::string(const char*)` constructor read a buffer
this way.  A `std::string` is modelled by a Lean `String`, one character per
`char`. -/
def c_str (s : String) : String :=
  ⟨s.data.takeWhile (fun c => c ≠ Char.ofNat 0)⟩

/-- The conversion `static_cast<int>(n)` of a `std::size_t`: the value is
reduced modulo `2^32` and read as a signed 32-bit integer. -/
def static_cast_int (n : Nat) : Int :=
  if n % 2 ^ 32 < 2 ^ 31 then ((n % 2 ^ 32 : Nat) : Int)
  else ((n % 2 ^ 32 : Nat) : Int) - 2 ^ 32

/-- The conversion `static_cast<uint16_t>(n)` of an `int`. -/
def static_cast_uint16 (n : Int) : Nat :=
  (n % 65536).toNat

/-! ## The SQLite interface used by the program -/

/-- Result code `SQLITE_OK` of `sqlite3.h`. -/
def SQLITE_OK : Int := 0

/-- Result code `SQLITE_ROW` of `sqlite3.h`. -/
def SQLITE_ROW : Int := 100

/-- Result code `SQLITE_DONE` of `sqlite3.h`. -/
def SQLITE_DONE : Int := 101

/-- The part of the SQLite C API that `query_prefix` calls, as functions on
a connection state `σ` (the handle `db` together with its current
statement).  `prepare_v2` and `step` return the result code and the new
state; the result codes of the two `bind` calls are ignored by the program
and are not part of the interface.  `column_text` returns `none` for a NULL
pointer. -/
structure Sqlite3 (σ : Type) where
  prepare_v2 : σ → String → Int × σ
  bind_text : σ → Nat → String → σ
  bind_int : σ → Nat → Int → σ
  step : σ → Int × σ
  column_text : σ → Nat → Option String
  errmsg : σ → String
  finalize : σ → σ

/-- One call made to the engine, with the arguments chosen by the program. -/
inductive ApiCall where
  | prepare_v2 (sql : String)
  | bind_text (idx : Nat) (value : String)
  | bind_int (idx : Nat) (value : Int)
  | step
  | column_text (col : Nat)
  | errmsg
  | finalize
  deriving DecidableEq, Repr

/-! ## `query_prefix` -/

/-- The statement text of `query_prefix` (the four adjacent literals of the
source, concatenated by the compiler). -/
def sql : String :=
  "SELECT lemma " ++ "FROM word_fts " ++ "WHERE word_fts MATCH ? || '*' " ++ "LIMIT ?;"

/-- What a call of `query_prefix` leaves behind: the returned vector, the
connection state, the engine calls it made (in order) and the lines it
logged through `CROW_LOG_ERROR`. -/
structure QueryRun (σ : Type) where
  results : List String
  db : σ
  calls : List ApiCall
  log : List String

/-- The row collection loop
`while ((rc = sqlite3_step(stmt)) == SQLITE_ROW) { ... }`.
Returns the first result code other than `SQLITE_ROW`, the state, the
vector and the calls made; `none` when the fuel runs out first. -/
def stepLoop {σ : Type} (E : Sqlite3 σ) :
    Nat → σ → List String → List ApiCall → Option (Int × σ × List String × List ApiCall)
  | 0, _, _, _ => none
  | fuel + 1, db, results, calls =>
    let r := E.step db
    if r.1 = SQLITE_ROW then
      match E.column_text r.2 0 with
      | some text =>
        stepLoop E fuel r.2 (results ++ [c_str text])
          (calls ++ [ApiCall.step, ApiCall.column_text 0])
      | none =>
        stepLoop E fuel r.2 results (calls ++ [ApiCall.step, ApiCall.column_text 0])
    else
      some (r.1, r.2, results, calls ++ [ApiCall.step])

/-- The function `query_prefix(db, prefix, limit = 20)`.  The argument
`limit` is `none` when the caller leaves it out. -/
def query_prefix {σ : Type} (E : Sqlite3 σ) (db : σ) (pfx : String)
    (limit : Option Nat) (fuel : Nat) : Option (QueryRun σ) :=
  let limit := limit.getD 20
  let p := E.prepare_v2 db sql
  if p.1 ≠ SQLITE_OK then
    some ⟨[], p.2, [ApiCall.prepare_v2 sql, ApiCall.errmsg],
      ["SQL prepare error: " ++ E.errmsg p.2]⟩
  else
    let s1 := E.bind_text p.2 1 (c_str pfx)
    let s2 := E.bind_int s1 2 (static_cast_int limit)
    match stepLoop E fuel s2 []
        [ApiCall.prepare_v2 sql, ApiCall.bind_text 1 (c_str pfx),
          ApiCall.bind_int 2 (static_cast_int limit)] with
    | none => none
    | some (rc, s3, results, calls) =>
      if rc ≠ SQLITE_DONE then
        some ⟨results, E.finalize s3, calls ++ [ApiCall.errmsg, ApiCall.finalize],
          ["SQL step error: " ++ E.errmsg s3]⟩
      else
        some ⟨results, E.finalize s3, calls ++ [ApiCall.finalize], []⟩

/-- The engine, stepped from state `s`, yields one row per element of `rows`
(the element is the value `sqlite3_column_text(stmt, 0)` has on that row) and
then answers `rc`, a code other than `SQLITE_ROW`, leaving state `s'`. -/
inductive Yields {σ : Type} (E : Sqlite3 σ) : σ → List (Option String) → Int → σ → Prop where
  | stop (s : σ) (h : (E.step s).1 ≠ SQLITE_ROW) :
      Yields E s [] (E.step s).1 (E.step s).2
  | row (s : σ) (rows : List (Option String)) (rc : Int) (s' : σ)
      (h : (E.step s).1 = SQLITE_ROW) (rest : Yields E (E.step s).2 rows rc s') :
      Yields E s (E.column_text (E.step s).2 0 :: rows) rc s'

/-- The entries the loop body appends for the given rows: a row whose text
pointer is NULL adds nothing, any other row adds its text read as a C
string. -/
def collected (rows : List (Option String)) : List String :=
  rows.filterMap (fun t => t.map c_str)

/-- The engine calls the loop makes while the engine yields `rows` and then
stops. -/
def loopCalls (rows : List (Option String)) : List ApiCall :=
  (rows.flatMap fun _ => [ApiCall.step, ApiCall.column_text 0]) ++ [ApiCall.step]

/-- The connection state on which the loop starts when preparation
succeeded: the prepared statement with both parameters bound. -/
def boundStmt {σ : Type} (E : Sqlite3 σ) (db : σ) (pfx : String) (limit : Option Nat) : σ :=
  E.bind_int (E.bind_text (E.prepare_v2 db sql).2 1 (c_str pfx)) 2
    (static_cast_int (limit.getD 20))

/-- The three calls made before the loop when preparation succeeded. -/
def setupCalls (pfx : String) (limit : Option Nat) : List ApiCall :=
  [ApiCall.prepare_v2 sql, ApiCall.bind_text 1 (c_str pfx),
    ApiCall.bind_int 2 (static_cast_int (limit.getD 20))]

/-! ## The HTTP handlers of `main` -/

/-- The JSON values of `crow::json::wvalue` that the lookup handler can
build.  The class comes with `crow.h`, which is not under `src/`; the model
follows the library: the type tag of a `wvalue` is initialised to
`json::type::Null`, so a default-constructed `wvalue` is JSON `null` until
something is assigned to it. -/
inductive wvalue where
  | null
  | string (s : String)
  | list (l : List wvalue)

/-- The statement `v[index] = str` on a `wvalue`, as the library defines it:
`operator[](unsigned)` resets a value whose type is not `List` and makes it a
list, resizes the list to `index + 1` elements when it is shorter (the new
elements are default-constructed, `null`), and returns the element at
`index`; the assignment makes that element the string `str`. -/
def wvalue.index_assign (v : wvalue) (index : Nat) (str : String) : wvalue :=
  let l := match v with
    | wvalue.list l => l
    | _ => []
  let l := if l.length < index + 1 then l ++ List.replicate (index + 1 - l.length) wvalue.null else l
  wvalue.list (l.set index (wvalue.string str))

mutual
/-- The text Crow sends for a `wvalue` (`dump`): `null`, a quoted string, or
the items between brackets, separated by commas.  The escaping of the
characters of a string is left to the parameter `escape`. -/
def wvalue.dump (escape : String → String) : wvalue → String
  | wvalue.null => "null"
  | wvalue.string s => "\"" ++ escape s ++ "\""
  | wvalue.list l => "[" ++ wvalue.dumpItems escape l ++ "]"
/-- The items of a list, dumped and separated by commas. -/
def wvalue.dumpItems (escape : String → String) : List wvalue → String
  | [] => ""
  | [v] => wvalue.dump escape v
  | v :: w :: rest => wvalue.dump escape v ++ "," ++ wvalue.dumpItems escape (w :: rest)
end

/-- The body of a `crow::response`: a string given by the handler, or a
`wvalue` that Crow serialises. -/
inductive Body where
  | text (s : String)
  | json (v : wvalue)

/-- A `crow::response`: status code and body.  A response built from a
string or from a returned `wvalue` has the status code 200, the
initial value of `crow::response::code`. -/
structure response where
  code : Nat
  body : Body

/-- The handler of `/health`: `crow::response{R"({"status":"ok"})"}`. -/
def health_handler : response :=
  ⟨200, Body.text "\x7b\"status\":\"ok\"\x7d"⟩

/-- The loop `for (size_t i = 0; i < words.size(); ++i) res[i] = words[i];`
run on a default-constructed `res`. -/
def lookup_json (words : List String) : wvalue :=
  (List.range words.length).foldl
    (fun res i => res.index_assign i (words.getD i "")) wvalue.null

/-- The handler of `/lookup/<string>`; it returns the response and the
connection state the query leaves, `none` when the query runs out of fuel. -/
def lookup_handler {σ : Type} (E : Sqlite3 σ) (db : σ) (q : String) (fuel : Nat) :
    Option (response × σ) :=
  match query_prefix E db q (some 30) fuel with
  | none => none
  | some run => some (⟨200, Body.json (lookup_json run.results)⟩, run.db)

/-- A request matched by one of the two routes of `main`. -/
inductive Request where
  | health
  | lookup (q : String)

/-- Dispatch of a routed request to its handler. -/
def handle {σ : Type} (E : Sqlite3 σ) (db : σ) (fuel : Nat) : Request → Option (response × σ)
  | Request.health => some (health_handler, db)
  | Request.lookup q => lookup_handler E db q fuel

/-! ## Port selection -/

/-- The exceptions `std::stoi` throws. -/
inductive StoiError where
  | invalid_argument
  | out_of_range
  deriving DecidableEq, Repr

/-- The C function `isspace` in the "C" locale. -/
def isspace (c : Char) : Bool :=
  c = ' ' || c = '\t' || c = '\n' || c = Char.ofNat 11 || c = Char.ofNat 12 || c = '\r'

/-- The value of a run of decimal digits. -/
def digitsValue (ds : List Char) : Nat :=
  ds.foldl (fun acc c => 10 * acc + (c.toNat - 48)) 0

/-- The standard function `std::stoi(str)` (base 10): leading white space is
skipped, one optional sign is read, then the longest run of decimal digits.
Without a digit it throws `std::invalid_argument`; when the value does not
fit an `int` it throws `std::out_of_range`; characters after the digits are
ignored. -/
def stoi (str : String) : Except StoiError Int :=
  let cs := str.data.dropWhile isspace
  let neg := cs.head? = some '-'
  let ds := (if cs.head? = some '-' ∨ cs.head? = some '+' then cs.tail else cs).takeWhile Char.isDigit
  if ds = [] then Except.error StoiError.invalid_argument
  else
    let v : Int := if neg then -(digitsValue ds : Int) else (digitsValue ds : Int)
    if v < -2147483648 ∨ 2147483647 < v then Except.error StoiError.out_of_range
    else Except.ok v

/-- The port selection of `main`; the argument is the result of
`std::getenv("LISTEN_PORT")`, `none` for a null pointer.  An exception of
`std::stoi` is not caught: it ends the process before a port is chosen. -/
def select_port (env : Option String) : Except StoiError Nat :=
  match env with
  | some v =>
    match stoi v with
    | Except.ok n => Except.ok (static_cast_uint16 n)
    | Except.error e => Except.error e
  | none => Except.ok 8080

/-! ## Two engines -/

/-- A scripted engine: `prepare_v2` answers `prepare_rc`, each `step`
answers the next entry of `steps` (result code and column text) and
`SQLITE_DONE` once the script is used up. -/
structure Script where
  prepare_rc : Int
  steps : List (Int × Option String)
  row : Option String

/-- The engine that plays a `Script`. -/
def ScriptEngine : Sqlite3 Script where
  prepare_v2 st _ := (st.prepare_rc, st)
  bind_text st _ _ := st
  bind_int st _ _ := st
  step st :=
    match st.steps with
    | [] => (SQLITE_DONE, ⟨st.prepare_rc, [], none⟩)
    | (rc, t) :: rest => (rc, ⟨st.prepare_rc, rest, t⟩)
  column_text st _ := st.row
  errmsg _ := "scripted failure"
  finalize st := ⟨st.prepare_rc, st.steps, none⟩

/-- Modelled from the spec: the datastore is outside `src/`.  It holds the
terms of the indexed column in index order; its prefix-match operator
returns "terms beginning with a supplied string" (glossary), and the row
count is capped by the bound limit, a negative limit meaning no cap.  The
fields `text` and `limit` are the two statement parameters once bound,
`pending` the rows not yet yielded once execution began, `row` the current
row. -/
structure Store where
  lemmas : List String
  text : Option String
  limit : Option Int
  pending : Option (List String)
  row : Option String

/-- Modelled from the spec: the rows the statement of `query_prefix` selects
from a `Store`, the stored terms that begin with the bound text, in index
order, at most `limit` of them. -/
def Store.selected (st : Store) : List String :=
  match st.text, st.limit with
  | some t, some n =>
    if n < 0 then st.lemmas.filter (fun w => t.data.isPrefixOf w.data)
    else (st.lemmas.filter (fun w => t.data.isPrefixOf w.data)).take n.toNat
  | _, _ => []

/-- Modelled from the spec: the engine over a `Store`.  It accepts the one
statement text `sql`. -/
def StoreEngine : Sqlite3 Store where
  prepare_v2 st s :=
    if s = sql then (SQLITE_OK, ⟨st.lemmas, none, none, none, none⟩) else (1, st)
  bind_text st i v := if i = 1 then ⟨st.lemmas, some v, st.limit, st.pending, st.row⟩ else st
  bind_int st i v := if i = 2 then ⟨st.lemmas, st.text, some v, st.pending, st.row⟩ else st
  step st :=
    match st.pending.getD st.selected with
    | [] => (SQLITE_DONE, ⟨st.lemmas, st.text, st.limit, some [], none⟩)
    | w :: ws => (SQLITE_ROW, ⟨st.lemmas, st.text, st.limit, some ws, some w⟩)
  column_text st col := if col = 0 then st.row else none
  errmsg _ := "not an error"
  finalize st := ⟨st.lemmas, none, none, none, none⟩

/-- A `Store` holding the given terms, with no statement prepared. -/
def Store.ofList (lemmas : List String) : Store :=
  ⟨lemmas, none, none, none, none⟩

/-- The rows the statement selects from a `Store` once `query_prefix` has bound
its two parameters. -/
def Store.hits (st : Store) (pfx : String) (limit : Option Nat) : List String :=
  Store.selected ⟨st.lemmas, some (c_str pfx), some (static_cast_int (limit.getD 20)), none, none⟩

/-- The right operand of `MATCH` in the statement text `sql`, the expression
`? || '*'`: the text bound to parameter 1 followed by `*`. -/
def match_operand (bound : String) : String :=
  bound ++ "*"

/-- Modelled from the spec: the rows the statement selects from a `Store`
whose full-text operator is the parameter `fts`.  The operator receives the
right operand of `MATCH` and the stored terms; it answers the matching terms
in index order, or `none` for an operand it rejects as malformed.  The rows
are capped as in `Store.selected`. -/
def Store.matched (fts : String → List String → Option (List String)) (st : Store) :
    Option (List String) :=
  match st.text, st.limit with
  | some t, some n =>
    match fts (match_operand t) st.lemmas with
    | some found => some (if n < 0 then found else found.take n.toNat)
    | none => none
  | _, _ => some []

/-- Modelled from the spec: the engine of `StoreEngine` with the full-text
operator left open.  The first `sqlite3_step` evaluates the statement; when
the operator rejects the operand the step answers `SQLITE_ERROR`. -/
def MatchEngine (fts : String → List String → Option (List String)) : Sqlite3 Store where
  prepare_v2 st s :=
    if s = sql then (SQLITE_OK, ⟨st.lemmas, none, none, none, none⟩) else (1, st)
  bind_text st i v := if i = 1 then ⟨st.lemmas, some v, st.limit, st.pending, st.row⟩ else st
  bind_int st i v := if i = 2 then ⟨st.lemmas, st.text, some v, st.pending, st.row⟩ else st
  step st :=
    match st.pending with
    | some [] => (SQLITE_DONE, ⟨st.lemmas, st.text, st.limit, some [], none⟩)
    | some (w :: ws) => (SQLITE_ROW, ⟨st.lemmas, st.text, st.limit, some ws, some w⟩)
    | none =>
      match st.matched fts with
      | none => (1, ⟨st.lemmas, st.text, st.limit, none, none⟩)
      | some [] => (SQLITE_DONE, ⟨st.lemmas, st.text, st.limit, some [], none⟩)
      | some (w :: ws) => (SQLITE_ROW, ⟨st.lemmas, st.text, st.limit, some ws, some w⟩)
  column_text st col := if col = 0 then st.row else none
  errmsg _ := "malformed MATCH expression"
  finalize st := ⟨st.lemmas, none, none, none, none⟩

/-- Modelled from the spec: the prefix-match operator of the glossary,
"returning terms beginning with a supplied string"; the supplied string is
the operand without its final `*`. -/
def prefix_operator (operand : String) (lemmas : List String) : Option (List String) :=
  some (lemmas.filter (fun w => operand.data.dropLast.isPrefixOf w.data))

/-- A full-text operator that reads a double quote as the start of a quoted
string, as the query grammar of SQLite's full-text modules does (the modules
are outside `src/`): an operand in which a quoted string is left open, one
with an odd number of double quotes, is malformed.  Every other operand is
answered by `rest`. -/
def quote_reading (rest : String → List String → Option (List String))
    (operand : String) (lemmas : List String) : Option (List String) :=
  if operand.data.count '"' % 2 = 1 then none else rest operand lemmas

/-! ## The loop and the rows the engine yields -/

theorem collected_cons_some (t : String) (rows : List (Option String)) :
    collected (some t :: rows) = c_str t :: collected rows := by
  simp [collected]

theorem collected_cons_none (rows : List (Option String)) :
    collected (none :: rows) = collected rows := by
  simp [collected]

theorem loopCalls_cons (t : Option String) (rows : List (Option String)) :
    loopCalls (t :: rows) = ApiCall.step :: ApiCall.column_text 0 :: loopCalls rows := by
  simp [loopCalls]

theorem collected_length_le (rows : List (Option String)) :
    (collected rows).length ≤ rows.length := by
  unfold collected
  exact List.length_filterMap_le _ _

/-- With more fuel than rows, the loop returns what the engine's rows
determine. -/
theorem stepLoop_of_yields {σ : Type} (E : Sqlite3 σ) {s : σ} {rows : List (Option String)}
    {rc : Int} {s' : σ} (h : Yields E s rows rc s') :
    ∀ (fuel : Nat) (acc : List String) (calls : List ApiCall), rows.length < fuel →
      stepLoop E fuel s acc calls
        = some (rc, s', acc ++ collected rows, calls ++ loopCalls rows) := by
  induction h with
  | stop s h =>
    intro fuel acc calls hf
    cases fuel with
    | zero => simp at hf
    | succ n => simp [stepLoop, h, collected, loopCalls]
  | row s rows rc s' h rest ih =>
    intro fuel acc calls hf
    cases fuel with
    | zero => simp at hf
    | succ n =>
      have hn : rows.length < n := by simpa using hf
      cases hc : E.column_text (E.step s).2 0 with
      | none =>
        simp only [stepLoop, h, if_true, hc]
        rw [ih n _ _ hn, collected_cons_none, loopCalls_cons]
        simp
      | some t =>
        simp only [stepLoop, h, if_true, hc]
        rw [ih n _ _ hn, collected_cons_some, loopCalls_cons]
        simp

/-- Whatever the loop returns is determined by the rows the engine
yielded. -/
theorem yields_of_stepLoop {σ : Type} (E : Sqlite3 σ) :
    ∀ (fuel : Nat) (s : σ) (acc : List String) (calls : List ApiCall) (rc : Int) (s' : σ)
      (res : List String) (calls' : List ApiCall),
      stepLoop E fuel s acc calls = some (rc, s', res, calls') →
      ∃ rows, Yields E s rows rc s' ∧ rows.length < fuel ∧
        res = acc ++ collected rows ∧ calls' = calls ++ loopCalls rows := by
  intro fuel
  induction fuel with
  | zero => intro s acc calls rc s' res calls' h; simp [stepLoop] at h
  | succ n ih =>
    intro s acc calls rc s' res calls' h
    by_cases hr : (E.step s).1 = SQLITE_ROW
    · cases hc : E.column_text (E.step s).2 0 with
      | none =>
        simp only [stepLoop, hr, if_true, hc] at h
        obtain ⟨rows, hy, hl, h1, h2⟩ := ih _ _ _ _ _ _ _ h
        refine ⟨E.column_text (E.step s).2 0 :: rows, Yields.row s rows rc s' hr hy, ?_, ?_, ?_⟩
        · simpa using hl
        · rw [hc, collected_cons_none]; exact h1
        · rw [loopCalls_cons, h2]; simp
      | some t =>
        simp only [stepLoop, hr, if_true, hc] at h
        obtain ⟨rows, hy, hl, h1, h2⟩ := ih _ _ _ _ _ _ _ h
        refine ⟨E.column_text (E.step s).2 0 :: rows, Yields.row s rows rc s' hr hy, ?_, ?_, ?_⟩
        · simpa using hl
        · rw [hc, collected_cons_some, h1]; simp
        · rw [loopCalls_cons, h2]; simp
    · simp only [stepLoop, hr, if_false, Option.some.injEq, Prod.mk.injEq] at h
      obtain ⟨h1, h2, h3, h4⟩ := h
      subst h1 h2 h3 h4
      exact ⟨[], Yields.stop s hr, by simp, by simp [collected], by simp [loopCalls]⟩

/-- The rows an engine yields from a state, and its answer after them, are
unique. -/
theorem Yields.unique {σ : Type} {E : Sqlite3 σ} {s : σ} {rows₁ rows₂ : List (Option String)}
    {rc₁ rc₂ : Int} {s₁ s₂ : σ} (h₁ : Yields E s rows₁ rc₁ s₁) (h₂ : Yields E s rows₂ rc₂ s₂) :
    rows₁ = rows₂ ∧ rc₁ = rc₂ ∧ s₁ = s₂ := by
  induction h₁ generalizing rows₂ rc₂ s₂ with
  | stop s h =>
    cases h₂ with
    | stop _ _ => exact ⟨rfl, rfl, rfl⟩
    | row _ _ _ _ h' _ => exact absurd h' h
  | row s rows rc s' h rest ih =>
    cases h₂ with
    | stop _ h' => exact absurd h h'
    | row _ rows' _ _ _ rest' =>
      obtain ⟨e1, e2, e3⟩ := ih rest'
      exact ⟨by rw [e1], e2, e3⟩

theorem Yields.rc_ne_row {σ : Type} {E : Sqlite3 σ} {s : σ} {rows : List (Option String)}
    {rc : Int} {s' : σ} (h : Yields E s rows rc s') : rc ≠ SQLITE_ROW := by
  induction h with
  | stop s h => exact h
  | row s rows rc s' h rest ih => exact ih

/-! ## Characterisation of `query_prefix` -/

theorem query_prefix_of_prepare_fail {σ : Type} (E : Sqlite3 σ) (db : σ) (pfx : String)
    (limit : Option Nat) (fuel : Nat) (h : (E.prepare_v2 db sql).1 ≠ SQLITE_OK) :
    query_prefix E db pfx limit fuel
      = some ⟨[], (E.prepare_v2 db sql).2, [ApiCall.prepare_v2 sql, ApiCall.errmsg],
          ["SQL prepare error: " ++ E.errmsg (E.prepare_v2 db sql).2]⟩ := by
  simp [ query_prefix, h]

theorem query_prefix_of_yields {σ : Type} (E : Sqlite3 σ) (db : σ) (pfx : String)
    (limit : Option Nat) (fuel : Nat) (rows : List (Option String)) (rc : Int) (s' : σ)
    (hp : (E.prepare_v2 db sql).1 = SQLITE_OK)
    (hy : Yields E (boundStmt E db pfx limit) rows rc s') (hf : rows.length < fuel) :
    query_prefix E db pfx limit fuel
      = if rc ≠ SQLITE_DONE then
          some ⟨collected rows, E.finalize s',
            setupCalls pfx limit ++ loopCalls rows ++ [ApiCall.errmsg, ApiCall.finalize],
            ["SQL step error: " ++ E.errmsg s']⟩
        else
          some ⟨collected rows, E.finalize s',
            setupCalls pfx limit ++ loopCalls rows ++ [ApiCall.finalize], []⟩ := by
  have hl := stepLoop_of_yields E hy fuel [] (setupCalls pfx limit) hf
  unfold boundStmt at hl
  unfold setupCalls at hl
  simp only [ query_prefix, hp, ne_eq, not_true_eq_false, if_false, hl, List.nil_append]
  rfl

theorem query_prefix_cases {σ : Type} (E : Sqlite3 σ) (db : σ) (pfx : String)
    (limit : Option Nat) (fuel : Nat) (run : QueryRun σ)
    (h : query_prefix E db pfx limit fuel = some run) :
    ((E.prepare_v2 db sql).1 ≠ SQLITE_OK ∧ run.results = [] ∧
        run.calls = [ApiCall.prepare_v2 sql, ApiCall.errmsg]) ∨
    ((E.prepare_v2 db sql).1 = SQLITE_OK ∧
      ∃ rows rc s', Yields E (boundStmt E db pfx limit) rows rc s' ∧ rows.length < fuel ∧
        run.results = collected rows ∧ run.db = E.finalize s' ∧
        run.calls = setupCalls pfx limit ++ loopCalls rows ++
          (if rc ≠ SQLITE_DONE then [ApiCall.errmsg, ApiCall.finalize]
           else [ApiCall.finalize])) := by
  by_cases hp : (E.prepare_v2 db sql).1 = SQLITE_OK
  · right
    refine ⟨hp, ?_⟩
    cases hl : stepLoop E fuel (boundStmt E db pfx limit) [] (setupCalls pfx limit) with
    | none =>
      unfold boundStmt setupCalls at hl
      simp [ query_prefix, hp, hl] at h
    | some out =>
      obtain ⟨rc, s', res, calls'⟩ := out
      obtain ⟨rows, hy, hlen, h1, h2⟩ := yields_of_stepLoop E _ _ _ _ _ _ _ _ hl
      refine ⟨rows, rc, s', hy, hlen, ?_⟩
      rw [query_prefix_of_yields E db pfx limit fuel rows rc s' hp hy hlen] at h
      by_cases hd : rc = SQLITE_DONE
      · simp only [hd, ne_eq, not_true_eq_false, if_false, Option.some.injEq] at h ⊢
        subst h
        exact ⟨rfl, rfl, rfl⟩
      · simp only [hd, ne_eq, not_false_eq_true, if_true, Option.some.injEq] at h ⊢
        subst h
        exact ⟨rfl, rfl, rfl⟩
  · left
    rw [query_prefix_of_prepare_fail E db pfx limit fuel hp] at h
    simp only [Option.some.injEq] at h
    subst h
    exact ⟨hp, rfl, rfl⟩

theorem static_cast_int_of_lt (n : Nat) (h : n < 2 ^ 31) : static_cast_int n = n := by
  have h1 : n % 2 ^ 32 = n := Nat.mod_eq_of_lt (by omega)
  unfold static_cast_int
  rw [h1, if_pos h]

theorem lookup_handler_eq {σ : Type} (E : Sqlite3 σ) (db : σ) (q : String) (fuel : Nat)
    (run : QueryRun σ) (h : query_prefix E db q (some 30) fuel = some run) :
    lookup_handler E db q fuel = some (⟨200, Body.json (lookup_json run.results)⟩, run.db) := by
  unfold lookup_handler
  rw [h]

/-! ## Rows of the two engines -/

theorem ScriptEngine_yields (prc : Int) (rows : List (Option String)) (rc : Int)
    (t : Option String) (rest : List (Int × Option String)) (row : Option String)
    (h : rc ≠ SQLITE_ROW) :
    Yields ScriptEngine ⟨prc, rows.map (fun r => (SQLITE_ROW, r)) ++ (rc, t) :: rest, row⟩
      rows rc ⟨prc, rest, t⟩ := by
  induction rows generalizing row with
  | nil => exact Yields.stop (E := ScriptEngine) ⟨prc, (rc, t) :: rest, row⟩ h
  | cons r rows ih =>
    exact Yields.row (E := ScriptEngine)
      ⟨prc, (SQLITE_ROW, r) :: (rows.map (fun r => (SQLITE_ROW, r)) ++ (rc, t) :: rest), row⟩
      rows rc ⟨prc, rest, t⟩ rfl (ih r)

theorem StoreEngine_step_nil (st : Store) (h : st.pending.getD st.selected = []) :
    StoreEngine.step st = (SQLITE_DONE, ⟨st.lemmas, st.text, st.limit, some [], none⟩) := by
  show (match st.pending.getD st.selected with
    | [] => (SQLITE_DONE, (⟨st.lemmas, st.text, st.limit, some [], none⟩ : Store))
    | w :: ws => (SQLITE_ROW, ⟨st.lemmas, st.text, st.limit, some ws, some w⟩)) = _
  rw [h]

theorem StoreEngine_step_cons (st : Store) (w : String) (ws : List String)
    (h : st.pending.getD st.selected = w :: ws) :
    StoreEngine.step st = (SQLITE_ROW, ⟨st.lemmas, st.text, st.limit, some ws, some w⟩) := by
  show (match st.pending.getD st.selected with
    | [] => (SQLITE_DONE, (⟨st.lemmas, st.text, st.limit, some [], none⟩ : Store))
    | w :: ws => (SQLITE_ROW, ⟨st.lemmas, st.text, st.limit, some ws, some w⟩)) = _
  rw [h]

/-- A `Store` yields its pending rows, each with a text, and then completes. -/
theorem StoreEngine_yields (l : List String) :
    ∀ st : Store, st.pending.getD st.selected = l →
      Yields StoreEngine st (l.map some) SQLITE_DONE
        ⟨st.lemmas, st.text, st.limit, some [], none⟩ := by
  induction l with
  | nil =>
    intro st h
    have hs := StoreEngine_step_nil st h
    have hne : (StoreEngine.step st).1 ≠ SQLITE_ROW := by
      rw [hs]
      show SQLITE_DONE ≠ SQLITE_ROW
      decide
    have hy := Yields.stop (E := StoreEngine) st hne
    rw [hs] at hy
    exact hy
  | cons w ws ih =>
    intro st h
    have hs := StoreEngine_step_cons st w ws h
    have hrest := ih ⟨st.lemmas, st.text, st.limit, some ws, some w⟩ rfl
    have hy := Yields.row (E := StoreEngine) st (ws.map some) SQLITE_DONE
      ⟨st.lemmas, st.text, st.limit, some [], none⟩ (by rw [hs]) (by rw [hs]; exact hrest)
    rw [hs] at hy
    exact hy

theorem StoreEngine_boundStmt (st : Store) (pfx : String) (limit : Option Nat) :
    boundStmt StoreEngine st pfx limit
      = ⟨st.lemmas, some (c_str pfx), some (static_cast_int (limit.getD 20)), none, none⟩ := by
  simp [boundStmt, StoreEngine]

theorem StoreEngine_prepare (st : Store) : (StoreEngine.prepare_v2 st sql).1 = SQLITE_OK := by
  simp [StoreEngine]

theorem StoreEngine_bound_yields (st : Store) (pfx : String) (limit : Option Nat) :
    Yields StoreEngine (boundStmt StoreEngine st pfx limit) ((st.hits pfx limit).map some)
      SQLITE_DONE
      ⟨st.lemmas, some (c_str pfx), some (static_cast_int (limit.getD 20)), some [], none⟩ := by
  rw [StoreEngine_boundStmt]
  exact StoreEngine_yields (st.hits pfx limit) _ rfl

theorem Store.hits_sublist (st : Store) (pfx : String) (limit : Option Nat) :
    (st.hits pfx limit).Sublist
      (st.lemmas.filter (fun w => (c_str pfx).data.isPrefixOf w.data)) := by
  unfold Store.hits Store.selected
  simp only
  split
  · exact List.Sublist.refl _
  · exact List.take_sublist _ _

theorem Store.hits_length_le (st : Store) (pfx : String) (limit : Option Nat) :
    (st.hits pfx limit).length ≤ st.lemmas.length :=
  le_trans (Store.hits_sublist st pfx limit).length_le (List.length_filter_le _ _)

theorem Store.hits_prefix (st : Store) (pfx : String) (limit : Option Nat) (w : String)
    (h : w ∈ st.hits pfx limit) : (c_str pfx).data <+: w.data := by
  have hm := (Store.hits_sublist st pfx limit).subset h
  rw [List.mem_filter] at hm
  exact List.isPrefixOf_iff_prefix.mp hm.2

theorem c_str_no_nul (s : String) : ∀ c ∈ (c_str s).data, c ≠ Char.ofNat 0 := by
  intro c hc
  have := List.mem_takeWhile_imp hc
  simpa using this

theorem c_str_eq_self (s : String) (h : ∀ c ∈ s.data, c ≠ Char.ofNat 0) : c_str s = s := by
  unfold c_str
  have : s.data.takeWhile (fun c => decide (c ≠ Char.ofNat 0)) = s.data := by
    rw [List.takeWhile_eq_self_iff]
    intro c hc
    simpa using h c hc
  rw [this]

theorem prefix_takeWhile_append (p : Char → Bool) (t r : List Char) (ht : ∀ c ∈ t, p c = true) :
    t <+: (t ++ r).takeWhile p := by
  induction t with
  | nil => exact List.nil_prefix
  | cons a t ih =>
    have ha : p a = true := ht a (List.mem_cons_self _ _)
    rw [List.cons_append, List.takeWhile_cons_of_pos ha]
    exact (List.prefix_cons_inj a).mpr (ih (fun c hc => ht c (List.mem_cons_of_mem _ hc)))

/-- Reading a text as a C string keeps a NUL-free beginning of it. -/
theorem prefix_c_str (t : List Char) (w : String) (ht : ∀ c ∈ t, c ≠ Char.ofNat 0)
    (h : t <+: w.data) : t <+: (c_str w).data := by
  obtain ⟨r, hr⟩ := h
  unfold c_str
  show t <+: w.data.takeWhile (fun c => decide (c ≠ Char.ofNat 0))
  rw [← hr]
  exact prefix_takeWhile_append _ t r (fun c hc => by simpa using ht c hc)

theorem collected_map_some (l : List String) : collected (l.map some) = l.map c_str := by
  induction l with
  | nil => rfl
  | cons a l ih => rw [List.map_cons, collected_cons_some, ih, List.map_cons]

/-- What `query_prefix` returns on a `Store`, whenever it returns. -/
theorem query_prefix_StoreEngine_results (st : Store) (pfx : String) (limit : Option Nat)
    (fuel : Nat) (run : QueryRun Store)
    (h : query_prefix StoreEngine st pfx limit fuel = some run) :
    run.results = (st.hits pfx limit).map c_str := by
  rcases query_prefix_cases StoreEngine st pfx limit fuel run h with ⟨hp, _⟩ | ⟨_, rows, rc, s', hy, _, hr, _⟩
  · exact absurd (StoreEngine_prepare st) hp
  · obtain ⟨e, _, _⟩ := Yields.unique hy (StoreEngine_bound_yields st pfx limit)
    rw [hr, e, collected_map_some]

theorem query_prefix_StoreEngine_returns (st : Store) (pfx : String) (limit : Option Nat)
    (fuel : Nat) (hf : st.lemmas.length < fuel) :
    ∃ run, query_prefix StoreEngine st pfx limit fuel = some run := by
  have hlen : ((st.hits pfx limit).map some).length < fuel := by
    rw [List.length_map]
    exact lt_of_le_of_lt (Store.hits_length_le st pfx limit) hf
  rw [query_prefix_of_yields StoreEngine st pfx limit fuel _ _ _ (StoreEngine_prepare st)
    (StoreEngine_bound_yields st pfx limit) hlen]
  simp

theorem MatchEngine_boundStmt (fts : String → List String → Option (List String)) (st : Store)
    (pfx : String) (limit : Option Nat) :
    boundStmt (MatchEngine fts) st pfx limit
      = ⟨st.lemmas, some (c_str pfx), some (static_cast_int (limit.getD 20)), none, none⟩ := by
  simp [boundStmt, MatchEngine]

theorem MatchEngine_prepare (fts : String → List String → Option (List String)) (st : Store) :
    ((MatchEngine fts).prepare_v2 st sql).1 = SQLITE_OK := by
  simp [MatchEngine]

theorem MatchEngine_yields_pending (fts : String → List String → Option (List String))
    (lemmas : List String) (text : Option String) (limit : Option Int) (l : List String) :
    ∀ row, Yields (MatchEngine fts) ⟨lemmas, text, limit, some l, row⟩ (l.map some) SQLITE_DONE
      ⟨lemmas, text, limit, some [], none⟩ := by
  induction l with
  | nil =>
    intro row
    exact Yields.stop (E := MatchEngine fts) ⟨lemmas, text, limit, some [], row⟩
      (show SQLITE_DONE ≠ SQLITE_ROW by decide)
  | cons w ws ih =>
    intro row
    exact Yields.row (E := MatchEngine fts) ⟨lemmas, text, limit, some (w :: ws), row⟩
      (ws.map some) SQLITE_DONE ⟨lemmas, text, limit, some [], none⟩ rfl (ih (some w))

/-- The rows of a `MatchEngine` once both parameters are bound: none and an
error when the operator rejects the operand, the capped matches
otherwise. -/
theorem MatchEngine_yields_bound (fts : String → List String → Option (List String))
    (lemmas : List String) (t : String) (n : Int) :
    (Store.matched fts ⟨lemmas, some t, some n, none, none⟩ = none →
      Yields (MatchEngine fts) ⟨lemmas, some t, some n, none, none⟩ [] 1
        ⟨lemmas, some t, some n, none, none⟩) ∧
    (∀ l, Store.matched fts ⟨lemmas, some t, some n, none, none⟩ = some l →
      Yields (MatchEngine fts) ⟨lemmas, some t, some n, none, none⟩ (l.map some) SQLITE_DONE
        ⟨lemmas, some t, some n, some [], none⟩) := by
  constructor
  · intro hm
    have hs : (MatchEngine fts).step ⟨lemmas, some t, some n, none, none⟩
        = (1, ⟨lemmas, some t, some n, none, none⟩) := by
      simp only [MatchEngine, hm]
    have hy := Yields.stop (E := MatchEngine fts) ⟨lemmas, some t, some n, none, none⟩
      (by rw [hs]; show (1 : Int) ≠ SQLITE_ROW; decide)
    rw [hs] at hy
    exact hy
  · intro l hm
    cases l with
    | nil =>
      have hs : (MatchEngine fts).step ⟨lemmas, some t, some n, none, none⟩
          = (SQLITE_DONE, ⟨lemmas, some t, some n, some [], none⟩) := by
        simp only [MatchEngine, hm]
      have hy := Yields.stop (E := MatchEngine fts) ⟨lemmas, some t, some n, none, none⟩
        (by rw [hs]; show SQLITE_DONE ≠ SQLITE_ROW; decide)
      rw [hs] at hy
      exact hy
    | cons w ws =>
      have hs : (MatchEngine fts).step ⟨lemmas, some t, some n, none, none⟩
          = (SQLITE_ROW, ⟨lemmas, some t, some n, some ws, some w⟩) := by
        simp only [MatchEngine, hm]
      have hy := Yields.row (E := MatchEngine fts) ⟨lemmas, some t, some n, none, none⟩
        (ws.map some) SQLITE_DONE ⟨lemmas, some t, some n, some [], none⟩ (by rw [hs])
        (by rw [hs]; exact MatchEngine_yields_pending fts lemmas (some t) (some n) ws (some w))
      rw [hs] at hy
      exact hy

/-- With the prefix-match operator of the glossary a `MatchEngine` selects
the rows `StoreEngine` selects. -/
theorem Store.matched_prefix_operator (lemmas : List String) (t : String) (n : Int)
    (pending : Option (List String)) (row : Option String) :
    Store.matched prefix_operator ⟨lemmas, some t, some n, pending, row⟩
      = some (Store.selected ⟨lemmas, some t, some n, pending, row⟩) := by
  have hd : (match_operand t).data.dropLast = t.data := by
    show (t.data ++ ['*']).dropLast = t.data
    exact List.dropLast_concat
  simp only [Store.matched, Store.selected, prefix_operator, hd]

/-- What `query_prefix` returns and logs on a `MatchEngine`, whenever it
returns: the outcome is decided by the operator's answer to the bound text
followed by `*`. -/
theorem query_prefix_MatchEngine (fts : String → List String → Option (List String))
    (st : Store) (pfx : String) (limit : Option Nat) (fuel : Nat) (run : QueryRun Store)
    (h : query_prefix (MatchEngine fts) st pfx limit fuel = some run) :
    (fts (match_operand (c_str pfx)) st.lemmas = none →
      run.results = [] ∧ run.log = ["SQL step error: malformed MATCH expression"]) ∧
    (∀ found, fts (match_operand (c_str pfx)) st.lemmas = some found →
      run.results
        = (if static_cast_int (limit.getD 20) < 0 then found
           else found.take (static_cast_int (limit.getD 20)).toNat).map c_str ∧
      run.log = []) := by
  rcases query_prefix_cases (MatchEngine fts) st pfx limit fuel run h with
    ⟨hp, _⟩ | ⟨hp, rows, rc, s', hy, hlen, _⟩
  · exact absurd (MatchEngine_prepare fts st) hp
  · rw [query_prefix_of_yields (MatchEngine fts) st pfx limit fuel rows rc s' hp hy hlen] at h
    rw [MatchEngine_boundStmt] at hy
    have hb := MatchEngine_yields_bound fts st.lemmas (c_str pfx)
      (static_cast_int (limit.getD 20))
    constructor
    · intro hn
      have hm : Store.matched fts
          ⟨st.lemmas, some (c_str pfx), some (static_cast_int (limit.getD 20)), none, none⟩
          = none := by
        simp only [Store.matched, hn]
      obtain ⟨e1, e2, e3⟩ := Yields.unique hy (hb.1 hm)
      subst e1 e2 e3
      rw [if_pos (show (1 : Int) ≠ SQLITE_DONE by decide)] at h
      simp only [Option.some.injEq] at h
      subst h
      exact ⟨rfl, rfl⟩
    · intro found hf
      have hm : Store.matched fts
          ⟨st.lemmas, some (c_str pfx), some (static_cast_int (limit.getD 20)), none, none⟩
          = some (if static_cast_int (limit.getD 20) < 0 then found
              else found.take (static_cast_int (limit.getD 20)).toNat) := by
        simp only [Store.matched, hf]
      obtain ⟨e1, e2, e3⟩ := Yields.unique hy (hb.2 _ hm)
      subst e1 e2 e3
      rw [if_neg (show ¬ (SQLITE_DONE ≠ SQLITE_DONE) by decide)] at h
      simp only [Option.some.injEq] at h
      subst h
      exact ⟨collected_map_some _, rfl⟩

/-! ## Claims on `query_prefix` -/

/-- C4: `query_prefix` never propagates a datastore failure.  When statement
preparation fails it returns the empty sequence, with any fuel; when
stepping yields the rows `rows` and then answers a code that is neither
`SQLITE_ROW` nor `SQLITE_DONE`, it returns, given more fuel than rows,
exactly the entries collected from those rows, in order.  In both cases the
call returns a value. -/
theorem query_prefix_fail_open {σ : Type} (E : Sqlite3 σ) (db : σ) (pfx : String)
    (limit : Option Nat) :
    ((E.prepare_v2 db sql).1 ≠ SQLITE_OK →
      ∀ fuel, ∃ run, query_prefix E db pfx limit fuel = some run ∧ run.results = []) ∧
    (∀ rows rc s', (E.prepare_v2 db sql).1 = SQLITE_OK →
      Yields E (boundStmt E db pfx limit) rows rc s' → rc ≠ SQLITE_DONE →
      ∀ fuel, rows.length < fuel →
        ∃ run, query_prefix E db pfx limit fuel = some run ∧
          run.results = rows.filterMap (fun t => t.map c_str)) := by
  constructor
  · intro hp fuel
    exact ⟨_, query_prefix_of_prepare_fail E db pfx limit fuel hp, rfl⟩
  · intro rows rc s' hp hy hrc fuel hf
    rw [query_prefix_of_yields E db pfx limit fuel rows rc s' hp hy hf, if_pos hrc]
    exact ⟨_, rfl, rfl⟩

/-- C4, at concrete inputs: a connection whose preparation fails, and one
that yields two rows and then fails with `SQLITE_ERROR`. -/
theorem query_prefix_fail_open_witness :
    (∃ run, query_prefix ScriptEngine ⟨1, [], none⟩ "ca" (some 30) 0 = some run ∧
      run.results = []) ∧
    (∃ run, query_prefix ScriptEngine
        ⟨0, [(100, some "cat"), (100, some "car"), (1, none)], none⟩ "ca" (some 30) 3 = some run ∧
      run.results = ["cat", "car"]) :=
  ⟨(query_prefix_fail_open ScriptEngine ⟨1, [], none⟩ "ca" (some 30)).1 (by decide) 0,
   (query_prefix_fail_open ScriptEngine
      ⟨0, [(100, some "cat"), (100, some "car"), (1, none)], none⟩ "ca" (some 30)).2
      [some "cat", some "car"] 1 ⟨0, [], none⟩ (by decide)
      (ScriptEngine_yields 0 [some "cat", some "car"] 1 none [] none (by decide))
      (by decide) 3 (by decide)⟩

/-- C5 as stated fails: the engine yields three rows and then completes, the
second row has a NULL text and the third a text with an embedded NUL; the
result has two entries, and the second entry is not the third row's text. -/
theorem query_prefix_drops_null_row :
    Yields ScriptEngine
      (boundStmt ScriptEngine
        ⟨0, [(100, some "cat"), (100, none), (100, some "ca\x00rt"), (101, none)], none⟩
        "ca" (some 30))
      [some "cat", none, some "ca\x00rt"] SQLITE_DONE ⟨0, [], none⟩ ∧
    ( query_prefix ScriptEngine
        ⟨0, [(100, some "cat"), (100, none), (100, some "ca\x00rt"), (101, none)], none⟩
        "ca" (some 30) 10).map (fun run => run.results) = some ["cat", "ca"] :=
  ⟨ScriptEngine_yields 0 [some "cat", none, some "ca\x00rt"] 101 none [] none (by decide),
   by decide⟩

/-- C5, amended: when preparation succeeds and the engine yields the rows
`rows` and then reports completion, `query_prefix` returns, given more fuel
than rows, one entry for each row whose column-0 text is not NULL, in the
order of the rows; the entry is that text read as a C string.  When no text
is NULL and none holds a NUL, the result is the texts themselves. -/
theorem query_prefix_collects {σ : Type} (E : Sqlite3 σ) (db : σ) (pfx : String)
    (limit : Option Nat) (rows : List (Option String)) (s' : σ) (fuel : Nat)
    (hp : (E.prepare_v2 db sql).1 = SQLITE_OK)
    (hy : Yields E (boundStmt E db pfx limit) rows SQLITE_DONE s')
    (hf : rows.length < fuel) :
    ∃ run, query_prefix E db pfx limit fuel = some run ∧
      run.results = rows.filterMap (fun t => t.map c_str) ∧
      run.log = [] ∧
      (∀ texts : List String, rows = texts.map some → (∀ t ∈ texts, c_str t = t) →
        run.results = texts) := by
  rw [query_prefix_of_yields E db pfx limit fuel rows SQLITE_DONE s' hp hy hf]
  simp only [ne_eq, not_true_eq_false, if_false]
  refine ⟨_, rfl, rfl, rfl, ?_⟩
  · intro texts hrows hnul
    show collected rows = texts
    subst hrows
    clear hy hf
    induction texts with
    | nil => rfl
    | cons t ts ih =>
      rw [List.map_cons, collected_cons_some, hnul t (List.mem_cons_self _ _)]
      rw [ih (fun u hu => hnul u (List.mem_cons_of_mem _ hu))]

/-- C5, amended, at a concrete input: three rows, one of them NULL. -/
theorem query_prefix_collects_witness :
    ∃ run, query_prefix ScriptEngine
        ⟨0, [(100, some "cat"), (100, none), (100, some "car"), (101, none)], none⟩
        "ca" (some 30) 4 = some run ∧
      run.results = ["cat", "car"] ∧ run.log = [] := by
  obtain ⟨run, h1, h2, h3, _⟩ := query_prefix_collects ScriptEngine
    ⟨0, [(100, some "cat"), (100, none), (100, some "car"), (101, none)], none⟩
    "ca" (some 30) [some "cat", none, some "car"] ⟨0, [], none⟩ 4 (by decide)
    (ScriptEngine_yields 0 [some "cat", none, some "car"] 101 none [] none (by decide))
    (by decide)
  exact ⟨run, h1, h2, h3⟩

/-- C1 as stated fails: on the dataset `cat, car, cart, dog`, a prefix that
holds a NUL after `ca` is bound as `ca`; three terms are returned and none
of them starts with the prefix the caller passed. -/
theorem query_prefix_nul_in_prefix :
    ( query_prefix StoreEngine (Store.ofList ["cat", "car", "cart", "dog"])
        "ca\x00zz" (some 30) 10).map (fun run => run.results) = some ["cat", "car", "cart"] ∧
    ¬ ("ca\x00zz".data <+: "cat".data) ∧ ¬ ("ca\x00zz".data <+: "car".data) ∧
    ¬ ("ca\x00zz".data <+: "cart".data) := by
  decide

/-- C1, amended: on a datastore whose prefix-match operator returns stored
terms that begin with the bound text, `query_prefix` returns a sequence
(given more fuel than stored terms), and every entry of a returned sequence
starts with the prefix read as a C string, that is with the prefix up to its
first NUL; for a prefix without NUL every entry starts with the prefix. -/
theorem query_prefix_starts_with (st : Store) (pfx : String) (limit : Option Nat) :
    (∀ fuel, st.lemmas.length < fuel →
      ∃ run, query_prefix StoreEngine st pfx limit fuel = some run) ∧
    (∀ fuel run, query_prefix StoreEngine st pfx limit fuel = some run →
      (∀ w ∈ run.results, (c_str pfx).data <+: w.data) ∧
      ((∀ c ∈ pfx.data, c ≠ Char.ofNat 0) → ∀ w ∈ run.results, pfx.data <+: w.data)) := by
  refine ⟨fun fuel hf => query_prefix_StoreEngine_returns st pfx limit fuel hf, ?_⟩
  intro fuel run h
  have hres := query_prefix_StoreEngine_results st pfx limit fuel run h
  have hall : ∀ w ∈ run.results, (c_str pfx).data <+: w.data := by
    intro w hw
    rw [hres, List.mem_map] at hw
    obtain ⟨v, hv, rfl⟩ := hw
    exact prefix_c_str _ v (c_str_no_nul pfx) (Store.hits_prefix st pfx limit v hv)
  refine ⟨hall, ?_⟩
  intro hnul w hw
  have := hall w hw
  rwa [c_str_eq_self pfx hnul] at this

/-- C1, amended, on the dataset of the scenario: the prefix `ca` yields
`cat, car, cart`, each of which starts with `ca`, and not `dog`. -/
theorem query_prefix_starts_with_witness :
    ∃ run, query_prefix StoreEngine (Store.ofList ["cat", "car", "cart", "dog"]) "ca"
        (some 30) 5 = some run ∧
      run.results = ["cat", "car", "cart"] ∧ ∀ w ∈ run.results, "ca".data <+: w.data := by
  obtain ⟨run, h⟩ := (query_prefix_starts_with (Store.ofList ["cat", "car", "cart", "dog"])
    "ca" (some 30)).1 5 (by decide)
  refine ⟨run, h, ?_, ?_⟩
  · rw [query_prefix_StoreEngine_results _ _ _ _ _ h]
    decide
  · exact ((query_prefix_starts_with (Store.ofList ["cat", "car", "cart", "dog"]) "ca"
      (some 30)).2 5 run h).2 (by decide)

theorem Store.hits_length_le_limit (st : Store) (pfx : String) (limit : Option Nat)
    (h : limit.getD 20 < 2 ^ 31) : (st.hits pfx limit).length ≤ limit.getD 20 := by
  unfold Store.hits Store.selected
  simp only
  rw [static_cast_int_of_lt _ h, if_neg (by omega)]
  rw [List.length_take, Int.toNat_ofNat]
  exact Nat.min_le_left _ _

/-- A limit that `static_cast<int>` turns negative leaves the rows of a
`Store` uncapped: `n` stored copies of `a` are all returned. -/
theorem StoreEngine_wrapped_limit (n limit fuel : Nat) (hneg : static_cast_int limit < 0)
    (hf : n < fuel) :
    ∃ run, query_prefix StoreEngine (Store.ofList (List.replicate n "a")) "a" (some limit) fuel
        = some run ∧ run.results.length = n := by
  have hlen : (Store.ofList (List.replicate n "a")).lemmas.length < fuel := by
    show (List.replicate n "a").length < fuel
    rw [List.length_replicate]
    exact hf
  obtain ⟨run, h⟩ := query_prefix_StoreEngine_returns
    (Store.ofList (List.replicate n "a")) "a" (some limit) fuel hlen
  refine ⟨run, h, ?_⟩
  rw [query_prefix_StoreEngine_results _ _ _ _ _ h, List.length_map]
  have hhits : (Store.ofList (List.replicate n "a")).hits "a" (some limit)
      = List.replicate n "a" := by
    unfold Store.hits Store.selected
    simp only
    have hneg' : static_cast_int ((some limit).getD 20) < 0 := hneg
    rw [if_pos hneg']
    show List.filter (fun w => (c_str "a").data.isPrefixOf w.data) (List.replicate n "a")
      = List.replicate n "a"
    rw [List.filter_eq_self]
    intro w hw
    rw [List.eq_of_mem_replicate hw]
    decide
  rw [hhits, List.length_replicate]

/-- C2 as stated fails: the limit `2^31` becomes `-2^31` under
`static_cast<int>`, and a negative LIMIT is no cap; on a datastore of
`2^31 + 1` terms `a`, the prefix `a` with that limit returns all
`2^31 + 1` of them, more than the limit. -/
theorem query_prefix_exceeds_wrapped_limit :
    ∃ run, query_prefix StoreEngine (Store.ofList (List.replicate 2147483649 "a")) "a"
        (some 2147483648) 2147483650 = some run ∧
      run.results.length = 2147483649 ∧ ¬ (run.results.length ≤ 2147483648) := by
  obtain ⟨run, h, hl⟩ := StoreEngine_wrapped_limit 2147483649 2147483648 2147483650
    (by decide) (by decide)
  exact ⟨run, h, hl, by rw [hl]; decide⟩

/-- C2, amended: on a datastore that honours the bound LIMIT, for every
content, every prefix and every limit below `2^31`, `query_prefix` returns a
sequence (given more fuel than stored terms) and the sequence has at most
`limit` entries, at most 20 when the caller gives no limit; the sequence the
`/lookup` handler encodes is the one returned for the limit 30 and has at
most 30 entries.  With every engine, failures included, the sequence is
empty when preparation fails and is never longer than the number of rows
the engine yielded. -/
theorem query_prefix_length_le_limit (pfx : String) :
    (∀ (st : Store) (limit : Option Nat) (fuel : Nat), st.lemmas.length < fuel →
      ∃ run, query_prefix StoreEngine st pfx limit fuel = some run) ∧
    (∀ (st : Store) (limit fuel : Nat) (run : QueryRun Store), limit < 2 ^ 31 →
      query_prefix StoreEngine st pfx (some limit) fuel = some run →
        run.results.length ≤ limit) ∧
    (∀ (st : Store) (fuel : Nat) (run : QueryRun Store),
      query_prefix StoreEngine st pfx none fuel = some run → run.results.length ≤ 20) ∧
    (∀ (st : Store) (fuel : Nat) (resp : response) (db' : Store),
      lookup_handler StoreEngine st pfx fuel = some (resp, db') →
        ∃ run, query_prefix StoreEngine st pfx (some 30) fuel = some run ∧
          resp = ⟨200, Body.json (lookup_json run.results)⟩ ∧ run.results.length ≤ 30) ∧
    (∀ (σ : Type) (E : Sqlite3 σ) (db : σ) (limit : Option Nat) (fuel : Nat) (run : QueryRun σ),
      query_prefix E db pfx limit fuel = some run →
        ((E.prepare_v2 db sql).1 ≠ SQLITE_OK → run.results = []) ∧
        ∀ rows rc s', Yields E (boundStmt E db pfx limit) rows rc s' →
          run.results.length ≤ rows.length) := by
  have cap : ∀ (st : Store) (limit : Option Nat) (fuel : Nat) (run : QueryRun Store),
      limit.getD 20 < 2 ^ 31 → query_prefix StoreEngine st pfx limit fuel = some run →
        run.results.length ≤ limit.getD 20 := by
    intro st limit fuel run hl h
    rw [query_prefix_StoreEngine_results st pfx limit fuel run h, List.length_map]
    exact Store.hits_length_le_limit st pfx limit hl
  refine ⟨fun st limit fuel hf => query_prefix_StoreEngine_returns st pfx limit fuel hf,
    fun st limit fuel run hl h => cap st (some limit) fuel run hl h,
    fun st fuel run h => cap st none fuel run (by decide) h, ?_, ?_⟩
  · intro st fuel resp db' h
    unfold lookup_handler at h
    cases hq : query_prefix StoreEngine st pfx (some 30) fuel with
    | none => rw [hq] at h; simp at h
    | some run =>
      rw [hq] at h
      simp only [Option.some.injEq, Prod.mk.injEq] at h
      exact ⟨run, rfl, h.1.symm, cap st (some 30) fuel run (by decide) hq⟩
  · intro σ E db limit fuel run h
    rcases query_prefix_cases E db pfx limit fuel run h with
      ⟨hp, hr, _⟩ | ⟨hp, rows', rc', s'', hy', _, hr, _⟩
    · refine ⟨fun _ => hr, ?_⟩
      intro rows rc s' _
      rw [hr]
      exact Nat.zero_le _
    · refine ⟨fun hn => absurd hp hn, ?_⟩
      intro rows rc s' hy
      obtain ⟨e, _, _⟩ := Yields.unique hy' hy
      rw [hr, e]
      exact collected_length_le rows

/-- C2, amended, at a concrete input: a store of four terms, three of which
begin with `ca`, queried with the limit 2, returns two entries, and the
`/lookup` handler on the same store encodes at most 30. -/
theorem query_prefix_length_le_limit_witness :
    (∃ run, query_prefix StoreEngine (Store.ofList ["cat", "car", "cart", "dog"]) "ca"
        (some 2) 5 = some run ∧ run.results = ["cat", "car"] ∧ run.results.length ≤ 2) ∧
    (∃ run : QueryRun Store,
      lookup_handler StoreEngine (Store.ofList ["cat", "car", "cart", "dog"]) "ca" 5
        = some (⟨200, Body.json (lookup_json run.results)⟩, run.db) ∧
      run.results.length ≤ 30) := by
  constructor
  · obtain ⟨run, h⟩ := (query_prefix_length_le_limit "ca").1
      (Store.ofList ["cat", "car", "cart", "dog"]) (some 2) 5 (by decide)
    refine ⟨run, h, ?_, (query_prefix_length_le_limit "ca").2.1 _ 2 5 run (by decide) h⟩
    rw [query_prefix_StoreEngine_results _ _ _ _ _ h]
    decide
  · obtain ⟨run, h⟩ := (query_prefix_length_le_limit "ca").1
      (Store.ofList ["cat", "car", "cart", "dog"]) (some 30) 5 (by decide)
    exact ⟨run, lookup_handler_eq _ _ _ _ run h,
      (query_prefix_length_le_limit "ca").2.1 _ 30 5 run (by decide) h⟩

theorem mem_loopCalls (c : ApiCall) (rows : List (Option String)) (h : c ∈ loopCalls rows) :
    c = ApiCall.step ∨ c = ApiCall.column_text 0 := by
  induction rows with
  | nil => simp [loopCalls] at h; exact Or.inl h
  | cons r rows ih =>
    rw [loopCalls_cons] at h
    rcases List.mem_cons.mp h with h | h
    · exact Or.inl h
    · rcases List.mem_cons.mp h with h | h
      · exact Or.inr h
      · exact ih h

/-- The calls `query_prefix` makes, apart from those of the loop: in every
run the first call prepares `sql`; a text is bound only at index 1 and is
the prefix read as a C string; an integer is bound only at index 2 and is
the limit converted to `int`. -/
theorem query_prefix_calls {σ : Type} (E : Sqlite3 σ) (db : σ) (pfx : String)
    (limit : Option Nat) (fuel : Nat) (run : QueryRun σ)
    (h : query_prefix E db pfx limit fuel = some run) :
    run.calls.head? = some (ApiCall.prepare_v2 sql) ∧
    (∀ text, ApiCall.prepare_v2 text ∈ run.calls → text = sql) ∧
    (∀ idx value, ApiCall.bind_text idx value ∈ run.calls → idx = 1 ∧ value = c_str pfx) ∧
    (∀ idx value, ApiCall.bind_int idx value ∈ run.calls →
      idx = 2 ∧ value = static_cast_int (limit.getD 20)) ∧
    ((E.prepare_v2 db sql).1 = SQLITE_OK →
      ApiCall.bind_text 1 (c_str pfx) ∈ run.calls ∧
      ApiCall.bind_int 2 (static_cast_int (limit.getD 20)) ∈ run.calls) := by
  rcases query_prefix_cases E db pfx limit fuel run h with
    ⟨hp, _, hc⟩ | ⟨_, rows, rc, s', _, _, _, _, hc⟩
  · rw [hc]
    refine ⟨rfl, ?_, ?_, ?_, fun hok => absurd hok hp⟩
    · intro text ht; simpa using ht
    · intro idx value ht; simp at ht
    · intro idx value ht; simp at ht
  · have hmem : ∀ c, c ∈ run.calls → c ∈ setupCalls pfx limit ∨ c = ApiCall.step ∨
        c = ApiCall.column_text 0 ∨ c = ApiCall.errmsg ∨ c = ApiCall.finalize := by
      intro c hcm
      rw [hc, List.mem_append, List.mem_append] at hcm
      rcases hcm with (hcm | hcm) | hcm
      · exact Or.inl hcm
      · rcases mem_loopCalls c rows hcm with e | e
        · exact Or.inr (Or.inl e)
        · exact Or.inr (Or.inr (Or.inl e))
      · split at hcm
        · simp at hcm
          rcases hcm with e | e
          · exact Or.inr (Or.inr (Or.inr (Or.inl e)))
          · exact Or.inr (Or.inr (Or.inr (Or.inr e)))
        · simp at hcm
          exact Or.inr (Or.inr (Or.inr (Or.inr hcm)))
    refine ⟨?_, ?_, ?_, ?_, ?_⟩
    · rw [hc]; rfl
    · intro text ht
      rcases hmem _ ht with e | e | e | e | e
      · simpa [setupCalls] using e
      all_goals cases e
    · intro idx value ht
      rcases hmem _ ht with e | e | e | e | e
      · simpa [setupCalls] using e
      all_goals cases e
    · intro idx value ht
      rcases hmem _ ht with e | e | e | e | e
      · simpa [setupCalls] using e
      all_goals cases e
    · intro _
      rw [hc]
      simp [setupCalls]

/-- C7 as stated fails twice.  A prefix holding a NUL is not bound as the
caller's string: the text bound for `a`, NUL, `b` is `a`.  And a prefix can be
read as query syntax: the statement hands the bound text followed by `*` to
`MATCH`, and an operator that reads a double quote as the start of a quoted
string rejects the prefix made of one double quote, so the step fails and
nothing is returned, although a stored term begins with that character and
is returned when the prefix is taken as plain text. -/
theorem query_prefix_prefix_is_match_syntax :
    (( query_prefix ScriptEngine ⟨0, [], none⟩ "a\x00b" (some 30) 1).map (fun run => run.calls)
      = some [ApiCall.prepare_v2 sql, ApiCall.bind_text 1 "a", ApiCall.bind_int 2 30,
          ApiCall.step, ApiCall.finalize] ∧
      "a" ≠ "a\x00b") ∧
    (match_operand (c_str "\"") = "\"*" ∧
      ( query_prefix (MatchEngine (quote_reading prefix_operator))
          (Store.ofList ["cat", "\"cat\""]) "\"" (some 30) 5).map
          (fun run => (run.results, run.log))
        = some ([], ["SQL step error: malformed MATCH expression"]) ∧
      ( query_prefix (MatchEngine prefix_operator)
          (Store.ofList ["cat", "\"cat\""]) "\"" (some 30) 5).map
          (fun run => (run.results, run.log))
        = some (["\"cat\""], [])) := by
  decide

/-- C7, amended: the caller's prefix is never part of the prepared statement
text.  Whatever the prefix and the limit, the first call of `query_prefix`
prepares the fixed text `sql` and no other text is prepared; the prefix
reaches the engine only as the text bound to parameter 1, and the bound text
is the prefix up to its first NUL, which is the prefix itself when it holds
no NUL.  The statement hands the bound text followed by `*` to `MATCH`: with
every full-text operator the outcome is the operator's answer to that
operand, the empty sequence and a logged step error when the operator
rejects the operand as malformed, the capped matches otherwise. -/
theorem query_prefix_binds_prefix (pfx : String) (limit : Option Nat) :
    (∀ (σ : Type) (E : Sqlite3 σ) (db : σ) (fuel : Nat) (run : QueryRun σ),
      query_prefix E db pfx limit fuel = some run →
        run.calls.head? = some (ApiCall.prepare_v2 sql) ∧
        (∀ text, ApiCall.prepare_v2 text ∈ run.calls → text = sql) ∧
        (∀ idx value, ApiCall.bind_text idx value ∈ run.calls →
          idx = 1 ∧ value = c_str pfx) ∧
        ((E.prepare_v2 db sql).1 = SQLITE_OK →
          ApiCall.bind_text 1 (c_str pfx) ∈ run.calls)) ∧
    ((∀ c ∈ pfx.data, c ≠ Char.ofNat 0) → c_str pfx = pfx) ∧
    (∀ (fts : String → List String → Option (List String)) (st : Store) (fuel : Nat)
        (run : QueryRun Store),
      query_prefix (MatchEngine fts) st pfx limit fuel = some run →
        (fts (match_operand (c_str pfx)) st.lemmas = none →
          run.results = [] ∧ run.log = ["SQL step error: malformed MATCH expression"]) ∧
        (∀ found, fts (match_operand (c_str pfx)) st.lemmas = some found →
          run.results
            = (if static_cast_int (limit.getD 20) < 0 then found
               else found.take (static_cast_int (limit.getD 20)).toNat).map c_str ∧
          run.log = [])) := by
  refine ⟨?_, c_str_eq_self pfx, ?_⟩
  · intro σ E db fuel run h
    obtain ⟨h1, h2, h3, _, h5⟩ := query_prefix_calls E db pfx limit fuel run h
    exact ⟨h1, h2, h3, fun hok => (h5 hok).1⟩
  · intro fts st fuel run h
    exact query_prefix_MatchEngine fts st pfx limit fuel run h

/-- C7, amended, at concrete inputs: a prefix that looks like statement text
is bound unchanged and the prepared text is `sql`; and on a store read by
the prefix-match operator the prefix `ca` returns the three terms that begin
with it. -/
theorem query_prefix_binds_prefix_witness :
    (∃ run, query_prefix ScriptEngine ⟨0, [], none⟩ "x; DROP TABLE word_fts" (some 30) 1
        = some run ∧
      run.calls.head? = some (ApiCall.prepare_v2 sql) ∧
      ApiCall.bind_text 1 "x; DROP TABLE word_fts" ∈ run.calls) ∧
    (∃ run, query_prefix (MatchEngine prefix_operator)
        (Store.ofList ["cat", "car", "cart", "dog"]) "ca" (some 30) 5 = some run ∧
      run.results = ["cat", "car", "cart"] ∧ run.log = []) := by
  constructor
  · refine ⟨_, rfl, ?_⟩
    have h := ( query_prefix_binds_prefix "x; DROP TABLE word_fts" (some 30)).1
      Script ScriptEngine ⟨0, [], none⟩ 1 _ rfl
    refine ⟨h.1, ?_⟩
    have hb := h.2.2.2 (by decide)
    rwa [( query_prefix_binds_prefix "x; DROP TABLE word_fts" (some 30)).2.1 (by decide)] at hb
  · refine ⟨_, rfl, ?_⟩
    exact (( query_prefix_binds_prefix "ca" (some 30)).2.2 prefix_operator
      (Store.ofList ["cat", "car", "cart", "dog"]) 5 _ rfl).2 ["cat", "car", "cart"] rfl

/-- C8 as stated fails: the limit 0 is bound as 0, not replaced by 20, and
the positive limit `2^31` is bound as `-2^31`. -/
theorem query_prefix_binds_zero_limit :
    ( query_prefix ScriptEngine ⟨0, [], none⟩ "ca" (some 0) 1).map (fun run => run.calls)
      = some [ApiCall.prepare_v2 sql, ApiCall.bind_text 1 "ca", ApiCall.bind_int 2 0,
          ApiCall.step, ApiCall.finalize] ∧
    ( query_prefix ScriptEngine ⟨0, [], none⟩ "ca" (some 2147483648) 1).map
        (fun run => run.calls)
      = some [ApiCall.prepare_v2 sql, ApiCall.bind_text 1 "ca",
          ApiCall.bind_int 2 (-2147483648), ApiCall.step, ApiCall.finalize] := by
  decide

/-- C8, amended: when preparation succeeds `query_prefix` binds an integer
to parameter 2 and nowhere else; the value is 20 when the caller gives no
limit, and is the caller's limit itself for every limit below `2^31`, the
limit 0 included. -/
theorem query_prefix_binds_limit {σ : Type} (E : Sqlite3 σ) (db : σ) (pfx : String)
    (limit : Option Nat) (fuel : Nat) (run : QueryRun σ)
    (h : query_prefix E db pfx limit fuel = some run) :
    ((E.prepare_v2 db sql).1 = SQLITE_OK → ∃ value, ApiCall.bind_int 2 value ∈ run.calls) ∧
    (limit = none →
      ∀ idx value, ApiCall.bind_int idx value ∈ run.calls → idx = 2 ∧ value = 20) ∧
    (∀ n : Nat, limit = some n → n < 2 ^ 31 →
      ∀ idx value, ApiCall.bind_int idx value ∈ run.calls → idx = 2 ∧ value = n) := by
  obtain ⟨_, _, _, h4, h5⟩ := query_prefix_calls E db pfx limit fuel run h
  refine ⟨fun hok => ⟨_, (h5 hok).2⟩, ?_, ?_⟩
  · intro hl idx value hm
    obtain ⟨e1, e2⟩ := h4 idx value hm
    subst hl
    exact ⟨e1, by rw [e2]; rfl⟩
  · intro n hl hn idx value hm
    obtain ⟨e1, e2⟩ := h4 idx value hm
    subst hl
    exact ⟨e1, by rw [e2]; exact static_cast_int_of_lt n hn⟩

/-- C8, amended, at concrete inputs: no limit, and the limit 30. -/
theorem query_prefix_binds_limit_witness :
    (∃ run, query_prefix ScriptEngine ⟨0, [], none⟩ "ca" none 1 = some run ∧
      ∀ idx value, ApiCall.bind_int idx value ∈ run.calls → idx = 2 ∧ value = 20) ∧
    (∃ run, query_prefix ScriptEngine ⟨0, [], none⟩ "ca" (some 30) 1 = some run ∧
      ∀ idx value, ApiCall.bind_int idx value ∈ run.calls → idx = 2 ∧ value = 30) :=
  ⟨⟨_, rfl, (query_prefix_binds_limit ScriptEngine ⟨0, [], none⟩ "ca" none 1 _ rfl).2.1 rfl⟩,
   ⟨_, rfl, (query_prefix_binds_limit ScriptEngine ⟨0, [], none⟩ "ca" (some 30) 1 _ rfl).2.2
      30 rfl (by decide)⟩⟩

/-! ## Claims on the handlers -/

theorem set_length_append (l : List wvalue) (a b : wvalue) :
    (l ++ [a]).set l.length b = l ++ [b] := by
  induction l with
  | nil => rfl
  | cons x l ih => simp [ih]

theorem index_assign_push (l : List wvalue) (str : String) :
    (wvalue.list l).index_assign l.length str = wvalue.list (l ++ [wvalue.string str]) := by
  simp [wvalue.index_assign, set_length_append]

/-- The loop of the lookup handler, run over the first `n + 1` indices. -/
theorem lookup_loop (words : List String) :
    ∀ n, n < words.length →
      (List.range (n + 1)).foldl
          (fun res i => wvalue.index_assign res i (words.getD i "")) wvalue.null
        = wvalue.list ((words.take (n + 1)).map wvalue.string) := by
  intro n
  induction n with
  | zero =>
    intro h
    cases words with
    | nil => simp at h
    | cons w ws => rfl
  | succ n ih =>
    intro h
    have hn : n < words.length := by omega
    rw [List.range_succ, List.foldl_append, ih hn]
    have hlen : ((words.take (n + 1)).map wvalue.string).length = n + 1 := by
      rw [List.length_map, List.length_take]
      omega
    have hstep := index_assign_push ((words.take (n + 1)).map wvalue.string)
      (words.getD (n + 1) "")
    rw [hlen] at hstep
    simp only [List.foldl_cons, List.foldl_nil]
    have hget : words[n + 1]? = some (words.getD (n + 1) "") := by
      rw [List.getD_eq_getElem?_getD, List.getElem?_eq_getElem h]
      rfl
    have htake : List.take (n + 1 + 1) words
        = List.take (n + 1) words ++ [words.getD (n + 1) ""] := by
      rw [List.take_succ, hget]
      rfl
    rw [hstep, htake]
    simp

/-- The JSON value the lookup handler builds: an array of the strings, in
order, for a sequence that is not empty, and `null` for the empty one. -/
theorem lookup_json_eq (words : List String) :
    lookup_json words
      = if words = [] then wvalue.null else wvalue.list (words.map wvalue.string) := by
  cases hw : words with
  | nil => rfl
  | cons w ws =>
    rw [← hw]
    have hne : words ≠ [] := by rw [hw]; exact List.cons_ne_nil _ _
    have hlen : words.length - 1 < words.length := by
      have : 0 < words.length := List.length_pos.mpr hne
      omega
    have h := lookup_loop words (words.length - 1) hlen
    have e : words.length - 1 + 1 = words.length := by omega
    rw [e, List.take_length] at h
    unfold lookup_json
    rw [h, if_neg hne]

/-- C3, on the dataset of the scenario: the prefix `zzz` matches no term,
`query_prefix` returns the empty sequence, and the handler answers with the
status 200 and the JSON value `null`, sent as the text `null`; the empty
array would be sent as `[]`. -/
theorem lookup_no_match_is_null :
    ( query_prefix StoreEngine (Store.ofList ["cat", "car", "cart", "dog"]) "zzz" (some 30) 5).map
        (fun run => run.results) = some [] ∧
    (lookup_handler StoreEngine (Store.ofList ["cat", "car", "cart", "dog"]) "zzz" 5).map
        (fun r => r.1) = some ⟨200, Body.json wvalue.null⟩ ∧
    (∀ escape, wvalue.dump escape wvalue.null = "null") ∧
    (∀ escape, wvalue.dump escape (wvalue.list []) = "[]") ∧
    wvalue.null ≠ wvalue.list [] :=
  ⟨by decide, rfl, fun _ => rfl, fun _ => rfl, by simp⟩

/-- C6: the JSON value built by the lookup handler for the sequence `words`
is the array of the strings of `words`, in order, when `words` is not
empty, and is `null`, not the array without elements, when `words` is
empty; the status of the response is 200 in both cases. -/
theorem lookup_json_array_unless_empty :
    lookup_json [] = wvalue.null ∧
    (∀ words : List String, words ≠ [] →
      lookup_json words = wvalue.list (words.map wvalue.string)) ∧
    (∀ (σ : Type) (E : Sqlite3 σ) (db : σ) (q : String) (fuel : Nat) (run : QueryRun σ),
      query_prefix E db q (some 30) fuel = some run →
        ∃ db', lookup_handler E db q fuel
          = some (⟨200, Body.json (lookup_json run.results)⟩, db')) := by
  refine ⟨rfl, ?_, ?_⟩
  · intro words hne
    rw [lookup_json_eq, if_neg hne]
  · intro σ E db q fuel run h
    exact ⟨run.db, lookup_handler_eq E db q fuel run h⟩

/-- C10: for every engine and every connection state, so also for a handle
on which every query fails and for the state any earlier request left, the
`/health` handler answers with the status 200 and the body
`{"status":"ok"}`, and leaves the connection untouched; the responses for two
engines in any two states are equal, and the response that follows a served
`/lookup` request is the same again. -/
theorem health_always_ok :
    (∀ (σ : Type) (E : Sqlite3 σ) (db : σ) (fuel : Nat),
      handle E db fuel Request.health
        = some (⟨200, Body.text "\x7b\"status\":\"ok\"\x7d"⟩, db)) ∧
    (∀ (σ τ : Type) (E : Sqlite3 σ) (F : Sqlite3 τ) (db : σ) (db' : τ) (fuel fuel' : Nat),
      (handle E db fuel Request.health).map (fun r => r.1)
        = (handle F db' fuel' Request.health).map (fun r => r.1)) ∧
    (∀ (σ : Type) (E : Sqlite3 σ) (db : σ) (fuel : Nat) (q : String) (r : response) (db' : σ),
      handle E db fuel (Request.lookup q) = some (r, db') →
        handle E db' fuel Request.health
          = some (⟨200, Body.text "\x7b\"status\":\"ok\"\x7d"⟩, db')) :=
  ⟨fun _ _ _ _ => rfl, fun _ _ _ _ _ _ _ _ => rfl, fun _ _ _ _ _ _ _ _ => rfl⟩

/-- C10, on a handle whose every preparation fails: a `/lookup` request is
served, and the `/health` request after it gets the fixed response. -/
theorem health_always_ok_witness :
    ∃ r db', handle ScriptEngine ⟨1, [], none⟩ 0 (Request.lookup "ca") = some (r, db') ∧
      handle ScriptEngine db' 0 Request.health
        = some (⟨200, Body.text "\x7b\"status\":\"ok\"\x7d"⟩, db') :=
  ⟨_, _, rfl, health_always_ok.2.2 Script ScriptEngine ⟨1, [], none⟩ 0 "ca" _ _ rfl⟩

/-! ## Claims on the port selection -/

theorem isDigit_not_isspace (c : Char) (h : c.isDigit = true) : isspace c = false := by
  unfold isspace
  simp only [Bool.or_eq_false_iff, decide_eq_false_iff_not]
  refine ⟨⟨⟨⟨⟨?_, ?_⟩, ?_⟩, ?_⟩, ?_⟩, ?_⟩ <;>
  · intro e
    rw [e] at h
    revert h
    decide

theorem stoi_of_digits (ds : List Char) (hne : ds ≠ []) (hd : ∀ c ∈ ds, c.isDigit = true)
    (hv : digitsValue ds ≤ 2147483647) : stoi ⟨ds⟩ = Except.ok (digitsValue ds : Int) := by
  obtain ⟨c, cs, rfl⟩ := List.exists_cons_of_ne_nil hne
  have hc : c.isDigit = true := hd c (List.mem_cons_self _ _)
  have hsp : isspace c = false := isDigit_not_isspace c hc
  have h1 : (c :: cs).dropWhile isspace = c :: cs := by
    rw [List.dropWhile_cons_of_neg (by simp [hsp])]
  have hminus : c ≠ '-' := by
    intro e; rw [e] at hc; revert hc; decide
  have hplus : c ≠ '+' := by
    intro e; rw [e] at hc; revert hc; decide
  have h2 : (c :: cs).takeWhile Char.isDigit = c :: cs := by
    rw [List.takeWhile_eq_self_iff]
    exact hd
  unfold stoi
  simp only [h1, List.head?_cons, Option.some.injEq, hminus, hplus, or_self, if_false, h2,
    decide_False, Bool.false_eq_true]
  rw [if_neg (List.cons_ne_nil _ _), if_neg]
  omega

/-- C9 as stated fails: with `LISTEN_PORT` set to `abc` no port is chosen,
`std::stoi` throws `std::invalid_argument`; and the value `70000`, which is
an integer, gives the port 4464. -/
theorem select_port_unparsable :
    select_port (some "abc") = Except.error StoiError.invalid_argument ∧
    select_port (some "abc") ≠ Except.ok 8080 ∧
    select_port (some "70000") = Except.ok 4464 := by
  refine ⟨rfl, ?_, rfl⟩
  intro h
  have e : select_port (some "abc") = Except.error StoiError.invalid_argument := rfl
  rw [e] at h
  cases h

/-- C9, amended: the port is 8080 when `LISTEN_PORT` is not set.  When it
is set and `std::stoi` reads the integer `n` from it, the port is `n`
reduced modulo 65536, which is `n` itself for `0 ≤ n < 65536`; a value made
of decimal digits only, of value at most `2^31 - 1`, is read as that value.
When it is set and `std::stoi` throws, the exception is the outcome and no
port is chosen. -/
theorem select_port_spec :
    select_port none = Except.ok 8080 ∧
    (∀ v n, stoi v = Except.ok n →
      select_port (some v) = Except.ok (n % 65536).toNat ∧
      (0 ≤ n → n < 65536 → select_port (some v) = Except.ok n.toNat)) ∧
    (∀ v e, stoi v = Except.error e → select_port (some v) = Except.error e) ∧
    (∀ ds : List Char, ds ≠ [] → (∀ c ∈ ds, c.isDigit = true) →
      digitsValue ds ≤ 2147483647 → stoi ⟨ds⟩ = Except.ok (digitsValue ds : Int)) := by
  refine ⟨rfl, ?_, ?_, stoi_of_digits⟩
  · intro v n h
    have hp : select_port (some v) = Except.ok (n % 65536).toNat := by
      simp only [select_port, h, static_cast_uint16]
    refine ⟨hp, fun h0 h1 => ?_⟩
    rw [hp, Int.emod_eq_of_lt h0 h1]
  · intro v e h
    simp only [select_port, h]

/-- C9, amended, at concrete inputs: `8081` gives the port 8081 and ` 22x`
the port 22. -/
theorem select_port_spec_witness :
    select_port (some "8081") = Except.ok 8081 ∧ select_port (some " 22x") = Except.ok 22 :=
  ⟨((select_port_spec.2.1 "8081" 8081 rfl).2 (by decide) (by decide)),
   ((select_port_spec.2.1 " 22x" 22 rfl).2 (by decide) (by decide))⟩

end Kalliope
